import Mathlib

/-!
A shallow embedding of the note-taking service's mutation core
(`src/services/noteService.js`), its Sequelize data model
(`src/models/Note.js`, `NoteVersion.js`, `NoteShare.js`) and the cache
invalidation helper (`src/middleware/cache.js`), together with proofs of
the specified properties: the optimistic-locking update protocol, the
append-only version history, the revert and share protocols, soft
deletion, authorization, and cache-invalidation ordering.

Database tables are lists of records; queries (`findOne`, `findAll`)
become `List.find?` / `List.filter`; fallible service methods return
`Except String` carrying the exact error-message strings thrown by the
source; a thrown error rolls the transaction back, so an `Except.error`
result carries no new database state.
-/

namespace NoteTaker

/-- A row of the `notes` table (`src/models/Note.js`): owner, title,
content, optimistic-lock `version` counter (starts at 1), and the
`paranoid` soft-delete marker `deletedAt` (none while live). -/
structure NoteRec where
  id : Nat
  userId : Nat
  title : String
  content : String
  version : Nat
  deletedAt : Option Nat
deriving DecidableEq, Repr

/-- A row of the `note_versions` table (`src/models/NoteVersion.js`):
an immutable snapshot keyed by (noteId, version), recording who changed it. -/
structure NoteVersionRec where
  noteId : Nat
  title : String
  content : String
  version : Nat
  changedBy : Nat
deriving DecidableEq, Repr

/-- The `permission` ENUM of `src/models/NoteShare.js`. -/
inductive SharePermission where
  | read
  | edit
deriving DecidableEq, Repr

/-- A row of the `note_shares` table (`src/models/NoteShare.js`); the table
has a unique index on (noteId, sharedWithUserId). -/
structure NoteShareRec where
  noteId : Nat
  sharedWithUserId : Nat
  permission : SharePermission
deriving DecidableEq, Repr

/-- The relational store: the tables touched by the note service, plus the
autoincrement counter supplying fresh note ids. `users` is the list of
registered user ids (`User.findByPk` succeeds exactly on members). -/
structure DB where
  users : List Nat
  notes : List NoteRec
  noteVersions : List NoteVersionRec
  noteShares : List NoteShareRec
  nextNoteId : Nat
deriving DecidableEq, Repr

/-- `deletedAt IS NULL`: the note is live (not soft-deleted). -/
def liveNote (n : NoteRec) : Bool :=
  n.deletedAt == none

/-- `Note.findOne({ where: { id: noteId, deletedAt: null } })`
(the load step of `updateNote`). -/
def findNoteLive (db : DB) (noteId : Nat) : Option NoteRec :=
  db.notes.find? (fun n => n.id == noteId && liveNote n)

/-- `Note.findOne({ where: { id: noteId, userId, deletedAt: null } })`
(the owner-only load used by `deleteNote`, `revertToVersion`, `shareNote`). -/
def findNoteOwned (db : DB) (noteId userId : Nat) : Option NoteRec :=
  db.notes.find? (fun n => n.id == noteId && n.userId == userId && liveNote n)

/-- The `shares` include of `updateNote`: NoteShare rows for this note held
by this user with permission `edit`. -/
def editShares (db : DB) (noteId userId : Nat) : List NoteShareRec :=
  db.noteShares.filter
    (fun s => s.noteId == noteId && s.sharedWithUserId == userId &&
      s.permission == SharePermission.edit)

/-- `$shares.sharedWithUserId$ = userId` with any permission, as used by the
read queries (`getNoteById`, `getAllNotes`, search). -/
def anyShareFor (db : DB) (noteId userId : Nat) : Bool :=
  db.noteShares.any (fun s => s.noteId == noteId && s.sharedWithUserId == userId)

/-- All stored versions of a note (the rows of `note_versions` with this
noteId, in insertion order). -/
def versionsOf (db : DB) (noteId : Nat) : List NoteVersionRec :=
  db.noteVersions.filter (fun v => v.noteId == noteId)

/-- `NoteVersion.findOne({ where: { noteId, version: targetVersion } })`. -/
def findVersion (db : DB) (noteId targetVersion : Nat) : Option NoteVersionRec :=
  db.noteVersions.find? (fun v => v.noteId == noteId && v.version == targetVersion)

/-- The `versions` include of `getNoteById`. The include carries
`order: version DESC`, but Sequelize silently ignores an `order` option
inside a non-`separate` include (ordering an eager-loaded association
requires either `separate: true` or a top-level `order` entry, and
`getNoteById` has neither), so the requested sort is never applied and the
joined rows come back in table (insertion) order. -/
def includedVersions (db : DB) (noteId : Nat) : List NoteVersionRec :=
  versionsOf db noteId

/-- `createNote` (noteService.js): insert the Note at version 1 and the
initial NoteVersion row. Always succeeds. -/
def createNote (db : DB) (userId : Nat) (title content : String) :
    DB × NoteRec :=
  let note : NoteRec :=
    { id := db.nextNoteId, userId := userId, title := title, content := content
      version := 1, deletedAt := none }
  let v1 : NoteVersionRec :=
    { noteId := note.id, title := title, content := content, version := 1
      changedBy := userId }
  ({ db with
      notes := db.notes ++ [note]
      noteVersions := db.noteVersions ++ [v1]
      nextNoteId := db.nextNoteId + 1 }, note)

/-- The VersionConflict message thrown by `updateNote`. -/
def versionConflictMsg : String :=
  "Note has been modified by another user. Please refresh and try again."

/-- `updateNote` (noteService.js): load the live note, check owner-or-editor
permission, apply the optimistic-lock version check against
`expectedVersion`, then (in one transaction) bump the version, overwrite
title/content and append the new NoteVersion row. An error rolls the
transaction back, so the error branches return no state. -/
def updateNote (db : DB) (noteId userId : Nat) (title content : String)
    (expectedVersion : Nat) : Except String (DB × NoteRec) :=
  match findNoteLive db noteId with
  | none => .error "Note not found"
  | some note =>
    let isOwner := note.userId == userId
    let hasEditPermission := !(editShares db noteId userId).isEmpty
    if !isOwner && !hasEditPermission then
      .error "Permission denied"
    else if note.version != expectedVersion then
      .error versionConflictMsg
    else
      let updated : NoteRec :=
        { note with title := title, content := content, version := note.version + 1 }
      let newVersion : NoteVersionRec :=
        { noteId := note.id, title := title, content := content
          version := updated.version, changedBy := userId }
      .ok ({ db with
              notes := db.notes.map (fun n => if n.id == note.id then updated else n)
              noteVersions := db.noteVersions ++ [newVersion] }, updated)

/-- `deleteNote` (noteService.js): owner-only lookup, then `note.destroy()`,
which under `paranoid: true` sets `deletedAt` to the current time. -/
def deleteNote (db : DB) (noteId userId : Nat) (now : Nat) :
    Except String (DB × String) :=
  match findNoteOwned db noteId userId with
  | none => .error "Note not found or permission denied"
  | some note =>
    .ok ({ db with
            notes := db.notes.map
              (fun n => if n.id == note.id then { note with deletedAt := some now } else n) },
      "Note deleted successfully")

/-- `revertToVersion` (noteService.js): owner-only lookup, fetch the target
NoteVersion, then (in one transaction) copy its title/content into the note,
bump the version by 1 (never set it to the target), and append a new
NoteVersion row with the reverted content. -/
def revertToVersion (db : DB) (noteId userId targetVersion : Nat) :
    Except String (DB × NoteRec) :=
  match findNoteOwned db noteId userId with
  | none => .error "Note not found or permission denied"
  | some note =>
    match findVersion db noteId targetVersion with
    | none => .error "Version not found"
    | some target =>
      let updated : NoteRec :=
        { note with title := target.title, content := target.content
                    version := note.version + 1 }
      let newVersion : NoteVersionRec :=
        { noteId := note.id, title := target.title, content := target.content
          version := updated.version, changedBy := userId }
      .ok ({ db with
              notes := db.notes.map (fun n => if n.id == note.id then updated else n)
              noteVersions := db.noteVersions ++ [newVersion] }, updated)

/-- `NoteShare.findOrCreate` lookup key. -/
def findShare (db : DB) (noteId sharedWithUserId : Nat) : Option NoteShareRec :=
  db.noteShares.find?
    (fun s => s.noteId == noteId && s.sharedWithUserId == sharedWithUserId)

/-- `share.permission = ...; share.save()`: overwrite the permission of the
(first, and under the unique index only) matching NoteShare row. -/
def setSharePermission (noteId sharedWithUserId : Nat) (p : SharePermission) :
    List NoteShareRec → List NoteShareRec
  | [] => []
  | s :: rest =>
    if s.noteId == noteId && s.sharedWithUserId == sharedWithUserId then
      { s with permission := p } :: rest
    else
      s :: setSharePermission noteId sharedWithUserId p rest

/-- `shareNote` (noteService.js): reject self-share, owner-only note lookup,
target user must exist, then upsert the NoteShare row
(`findOrCreate` + permission overwrite). A missing `permission` argument
defaults to `read` (`permission || "read"`). -/
def shareNote (db : DB) (noteId ownerId sharedWithUserId : Nat)
    (permission : Option SharePermission) : Except String (DB × NoteShareRec) :=
  if ownerId == sharedWithUserId then
    .error "Cannot share note with yourself"
  else
    match findNoteOwned db noteId ownerId with
    | none => .error "Note not found or permission denied"
    | some _ =>
      if db.users.contains sharedWithUserId then
        let p := permission.getD SharePermission.read
        match findShare db noteId sharedWithUserId with
        | some s =>
          .ok ({ db with
                  noteShares := setSharePermission noteId sharedWithUserId p db.noteShares },
            { s with permission := p })
        | none =>
          let s : NoteShareRec :=
            { noteId := noteId, sharedWithUserId := sharedWithUserId, permission := p }
          .ok ({ db with noteShares := db.noteShares ++ [s] }, s)
      else
        .error "User not found"

/-- `getNoteById` (noteService.js): single query requiring
`id = noteId AND (owner OR shared-with) AND deletedAt IS NULL`; a miss is
surfaced as one combined message, so a missing note and a forbidden note
are indistinguishable. Returns the note together with its version history
in the order the join produces it (the include-level `version DESC` is
ignored by Sequelize, see `includedVersions`). -/
def getNoteById (db : DB) (noteId userId : Nat) :
    Except String (NoteRec × List NoteVersionRec) :=
  match db.notes.find?
      (fun n => n.id == noteId && (n.userId == userId || anyShareFor db n.id userId)
        && liveNote n) with
  | none => .error "Note not found or access denied"
  | some n => .ok (n, includedVersions db noteId)

/-- `searchNotesByKeywords` (noteService.js): accessible live notes whose
text matches the keywords. The full-text / LIKE match is the external
search collaborator, passed as the predicate `matchesKeywords`; the
`deletedAt: null` conjunct is what matters here. -/
def searchNotes (db : DB) (userId : Nat) (matchesKeywords : NoteRec → Bool) :
    List NoteRec :=
  db.notes.filter
    (fun n => (n.userId == userId || anyShareFor db n.id userId) && liveNote n
      && matchesKeywords n)

/-- The Redis collaborator as seen by `invalidateCache`
(`src/middleware/cache.js`): whether the client is open, whether
`connect` / `keys` / `del` would succeed, and the keys the server reports
for the requested pattern. -/
structure RedisState where
  isOpen : Bool
  connectOk : Bool
  keysOk : Bool
  delOk : Bool
  storedKeys : List String
deriving DecidableEq, Repr

/-- `redisClient.connect()`. -/
def redisConnect (r : RedisState) : Except String RedisState :=
  if r.connectOk then .ok { r with isOpen := true } else .error "Connection failed"

/-- `redisClient.keys(pattern)`. -/
def redisKeys (r : RedisState) : Except String (List String) :=
  if r.keysOk then .ok r.storedKeys else .error "Redis error"

/-- `redisClient.del(keys)`. -/
def redisDel (r : RedisState) (keys : List String) : Except String Nat :=
  if r.delOk then .ok keys.length else .error "Redis error"

/-- The key-scan-and-delete part of `invalidateCache`: list the keys
matching the pattern and delete them if there are any; returns the keys
deleted. Any Redis failure propagates to the enclosing try. -/
def redisScanAndDel (r : RedisState) : Except String (List String) := do
  let keys ← redisKeys r
  if keys.length > 0 then
    let _ ← redisDel r keys
    pure keys
  else
    pure []

/-- The body of `invalidateCache` (cache.js): if the client is not open,
try to connect — a connection failure is logged with a warning and the
function returns normally having invalidated nothing; then scan and
delete. -/
def invalidateCacheRun (r : RedisState) : Except String (List String) :=
  if !r.isOpen then
    match redisConnect r with
    | .error _ => .ok []
    | .ok r2 => redisScanAndDel r2
  else
    redisScanAndDel r

/-- `invalidateCache(pattern)` (cache.js): the whole body sits in a
try/catch whose catch only logs — a cache-invalidation failure is never
rethrown to the caller. Returns the list of keys it managed to delete. -/
def invalidateCache (r : RedisState) (pattern : String) : List String :=
  let _ := pattern
  match invalidateCacheRun r with
  | .ok keys => keys
  | .error _ => []

/-- The cache-key pattern used by the note service for a user. -/
def notesCachePattern (userId : Nat) : String :=
  "cache:/api/v1/notes*:" ++ toString userId

/-- Externally visible events of one service call, in order. -/
inductive Event where
  | beginTx
  | commitTx
  | rollbackTx
  | cacheInvalidate (pattern : String) (deletedKeys : List String)
deriving DecidableEq, Repr

/-- No cache-invalidation event occurs before the first transaction
commit. -/
def noInvalidateBeforeCommit : List Event → Bool
  | [] => true
  | Event.commitTx :: _ => true
  | Event.cacheInvalidate _ _ :: _ => false
  | _ :: tr => noInvalidateBeforeCommit tr

/-- `updateNote` with its transaction/cache side effects made explicit:
begin the transaction, run the update, and either commit and then call
`invalidateCache`, or roll back and rethrow. -/
def updateNoteTraced (r : RedisState) (db : DB) (noteId userId : Nat)
    (title content : String) (expectedVersion : Nat) :
    Except String (DB × NoteRec) × List Event :=
  match updateNote db noteId userId title content expectedVersion with
  | .error e => (.error e, [Event.beginTx, Event.rollbackTx])
  | .ok res =>
    (.ok res,
      [Event.beginTx, Event.commitTx,
        Event.cacheInvalidate (notesCachePattern userId)
          (invalidateCache r (notesCachePattern userId))])

/-- `revertToVersion` with its transaction/cache side effects made
explicit, mirroring `updateNoteTraced`. -/
def revertToVersionTraced (r : RedisState) (db : DB)
    (noteId userId targetVersion : Nat) :
    Except String (DB × NoteRec) × List Event :=
  match revertToVersion db noteId userId targetVersion with
  | .error e => (.error e, [Event.beginTx, Event.rollbackTx])
  | .ok res =>
    (.ok res,
      [Event.beginTx, Event.commitTx,
        Event.cacheInvalidate (notesCachePattern userId)
          (invalidateCache r (notesCachePattern userId))])

/-- The service operations that mutate the store, as data: one request each. -/
inductive Op where
  | create (userId : Nat) (title content : String)
  | update (noteId userId : Nat) (title content : String) (expectedVersion : Nat)
  | revert (noteId userId targetVersion : Nat)
  | delete (noteId userId now : Nat)
  | share (noteId ownerId sharedWithUserId : Nat) (permission : Option SharePermission)
deriving DecidableEq, Repr

/-- Run one request against the store; a thrown error leaves the store
unchanged (the service rolls the transaction back and rethrows). -/
def applyOp (db : DB) : Op → DB
  | .create userId title content => (createNote db userId title content).1
  | .update noteId userId title content expectedVersion =>
    match updateNote db noteId userId title content expectedVersion with
    | .ok (db2, _) => db2
    | .error _ => db
  | .revert noteId userId targetVersion =>
    match revertToVersion db noteId userId targetVersion with
    | .ok (db2, _) => db2
    | .error _ => db
  | .delete noteId userId now =>
    match deleteNote db noteId userId now with
    | .ok (db2, _) => db2
    | .error _ => db
  | .share noteId ownerId sharedWithUserId permission =>
    match shareNote db noteId ownerId sharedWithUserId permission with
    | .ok (db2, _) => db2
    | .error _ => db

/-- The store as it stands at first boot: registered users, no notes. -/
def initDB (users : List Nat) : DB :=
  { users := users, notes := [], noteVersions := [], noteShares := [], nextNoteId := 1 }

/-- Run a sequence of requests from first boot. -/
def run (users : List Nat) (ops : List Op) : DB :=
  ops.foldl applyOp (initDB users)

/-! ### Derived record shapes, invariant definitions and fixtures -/

/-- The record an authorized in-version update writes for the note. -/
def updatedNote (note : NoteRec) (title content : String) : NoteRec :=
  { note with title := title, content := content, version := note.version + 1 }

/-- The NoteVersion row an update appends. -/
def updateRow (note : NoteRec) (title content : String) (userId : Nat) :
    NoteVersionRec :=
  { noteId := note.id, title := title, content := content
    version := note.version + 1, changedBy := userId }

/-- The record a revert writes for the note: target content, version + 1. -/
def revertedNote (note : NoteRec) (target : NoteVersionRec) : NoteRec :=
  { note with title := target.title, content := target.content
              version := note.version + 1 }

/-- The NoteVersion row a revert appends. -/
def revertRow (note : NoteRec) (target : NoteVersionRec) (userId : Nat) :
    NoteVersionRec :=
  { noteId := note.id, title := target.title, content := target.content
    version := note.version + 1, changedBy := userId }

/-- The version numbers stored for a note, in insertion order. -/
def versionNumbers (db : DB) (noteId : Nat) : List Nat :=
  (versionsOf db noteId).map (fun v => v.version)

/-- The Version Store invariant for one note: the stored version numbers
are exactly `1..version` in order, and the newest stored row mirrors the
note's current title, content and version. -/
def noteHistoryOk (db : DB) (n : NoteRec) : Prop :=
  versionNumbers db n.id = List.range' 1 n.version ∧
  ∃ v, (versionsOf db n.id).getLast? = some v ∧
    v.version = n.version ∧ v.title = n.title ∧ v.content = n.content

/-- The global store invariant: note ids are unique and below the
autoincrement counter, version rows reference allocated ids, and every
note's history is well formed. -/
def Inv (db : DB) : Prop :=
  (db.notes.map (fun n => n.id)).Nodup ∧
  (∀ n ∈ db.notes, n.id < db.nextNoteId) ∧
  (∀ v ∈ db.noteVersions, v.noteId < db.nextNoteId) ∧
  (∀ n ∈ db.notes, noteHistoryOk db n)

/-- The fresh note inserted by `createNote`. -/
def newNote (db : DB) (userId : Nat) (title content : String) : NoteRec :=
  { id := db.nextNoteId, userId := userId, title := title, content := content
    version := 1, deletedAt := none }

/-- The initial NoteVersion row inserted by `createNote`. -/
def newNoteRow (db : DB) (userId : Nat) (title content : String) :
    NoteVersionRec :=
  { noteId := db.nextNoteId, title := title, content := content
    version := 1, changedBy := userId }

/-- The number of NoteShare rows stored for a (noteId, sharedWithUserId)
pair; the unique index of `note_shares` keeps this at most 1. -/
def countShares (db : DB) (noteId sharedWithUserId : Nat) : Nat :=
  (db.noteShares.filter
    (fun s => s.noteId == noteId && s.sharedWithUserId == sharedWithUserId)).length

/-- A note owned by user 1, at version 1. -/
def exNote : NoteRec :=
  { id := 1, userId := 1, title := "a", content := "b", version := 1
    deletedAt := none }

/-- The initial snapshot of `exNote`. -/
def exV1 : NoteVersionRec :=
  { noteId := 1, title := "a", content := "b", version := 1, changedBy := 1 }

/-- An edit share of note 1 for user 2. -/
def exShare : NoteShareRec :=
  { noteId := 1, sharedWithUserId := 2, permission := SharePermission.edit }

/-- A store with users 1, 2, 3, one note owned by 1, edit-shared with 2. -/
def exDb : DB :=
  { users := [1, 2, 3], notes := [exNote], noteVersions := [exV1]
    noteShares := [exShare], nextNoteId := 2 }

/-- A Redis collaborator that fails every operation. -/
def deadRedis : RedisState :=
  { isOpen := false, connectOk := false, keysOk := false, delOk := false
    storedKeys := [] }

/-- A healthy Redis collaborator holding two cached keys. -/
def liveRedis : RedisState :=
  { isOpen := true, connectOk := true, keysOk := true, delOk := true
    storedKeys := ["cache:k1", "cache:k2"] }

/-- The store after sharing note 1 with user 3 at `read`. -/
def exDb1 : DB :=
  { exDb with noteShares :=
      [exShare,
        { noteId := 1, sharedWithUserId := 3, permission := SharePermission.read }] }

/-- The store after re-sharing note 1 with user 3 at `edit`. -/
def exDb2 : DB :=
  { exDb with noteShares :=
      [exShare,
        { noteId := 1, sharedWithUserId := 3, permission := SharePermission.edit }] }

/-- A note at version 2 whose history holds versions 1 and 2. -/
def bugNote : NoteRec :=
  { id := 1, userId := 1, title := "t2", content := "c2", version := 2
    deletedAt := none }

/-- The version-1 snapshot of `bugNote` (stored first). -/
def bugV1 : NoteVersionRec :=
  { noteId := 1, title := "t1", content := "c1", version := 1, changedBy := 1 }

/-- The version-2 snapshot of `bugNote` (stored second). -/
def bugV2 : NoteVersionRec :=
  { noteId := 1, title := "t2", content := "c2", version := 2, changedBy := 1 }

/-- A store holding `bugNote` with its two history rows in insertion
order. -/
def bugDb : DB :=
  { users := [1], notes := [bugNote], noteVersions := [bugV1, bugV2]
    noteShares := [], nextNoteId := 2 }

/-! ### Helper lemmas about the embedded queries -/

/-- If `find?` hits in the first list, appending does not change it. -/
theorem find?_append_of_some {α : Type} (p : α → Bool) {l : List α}
    (l2 : List α) {a : α} (h : l.find? p = some a) :
    (l ++ l2).find? p = some a := by
  induction l with
  | nil => simp [List.find?] at h
  | cons b bs ih =>
    rw [List.cons_append]
    by_cases hb : p b = true
    · rw [List.find?_cons_of_pos _ hb] at h
      rw [List.find?_cons_of_pos _ hb]
      exact h
    · rw [List.find?_cons_of_neg _ hb] at h
      rw [List.find?_cons_of_neg _ hb]
      exact ih h

/-- If the image of every element fails the predicate, `find?` over the
mapped list misses. -/
theorem find?_map_none {α : Type} {l : List α} {f : α → α} {p : α → Bool}
    (h : ∀ a ∈ l, p (f a) = false) : (l.map f).find? p = none := by
  rw [List.find?_eq_none]
  intro x hx
  obtain ⟨a, ha, rfl⟩ := List.mem_map.mp hx
  simp [h a ha]

/-- Replacing (by id) the record of a note that is present in the table by
a live record with the same id makes the live-note lookup return the
replacement. -/
theorem find_live_map (l : List NoteRec) (noteId : Nat) (note n2 : NoteRec)
    (hmem : note ∈ l) (hnid : note.id = noteId) (hid : n2.id = note.id)
    (hlive : liveNote n2 = true) :
    (l.map (fun n => if n.id == note.id then n2 else n)).find?
      (fun n => n.id == noteId && liveNote n) = some n2 := by
  induction l with
  | nil => cases hmem
  | cons a l ih =>
    rw [List.map_cons]
    by_cases ha : a.id = note.id
    · rw [if_pos (by simpa using ha)]
      exact List.find?_cons_of_pos _ (by simp [hid, hnid, hlive])
    · rw [if_neg (by simpa using ha)]
      have hpa : ¬ ((a.id == noteId && liveNote a) = true) := by
        have h3 : a.id ≠ noteId := by rw [← hnid]; exact ha
        simp [h3]
      rw [@List.find?_cons_of_neg _ (fun n => n.id == noteId && liveNote n) a _ hpa]
      have hmem2 : note ∈ l := by
        rcases List.mem_cons.mp hmem with rfl | h2
        · exact absurd rfl ha
        · exact h2
      exact ih hmem2

/-- A successful `findNoteLive` gives membership, the id and liveness. -/
theorem findNoteLive_spec {db : DB} {noteId : Nat} {note : NoteRec}
    (h : findNoteLive db noteId = some note) :
    note ∈ db.notes ∧ note.id = noteId ∧ note.deletedAt = none := by
  have hm := List.mem_of_find?_eq_some h
  have hp := List.find?_some h
  simp only [Bool.and_eq_true, beq_iff_eq, liveNote] at hp
  exact ⟨hm, hp.1, hp.2⟩

/-- A successful `findNoteOwned` gives membership, id, owner and liveness. -/
theorem findNoteOwned_spec {db : DB} {noteId userId : Nat} {note : NoteRec}
    (h : findNoteOwned db noteId userId = some note) :
    note ∈ db.notes ∧ note.id = noteId ∧ note.userId = userId ∧
      note.deletedAt = none := by
  have hm := List.mem_of_find?_eq_some h
  have hp := List.find?_some h
  simp only [Bool.and_eq_true, beq_iff_eq, liveNote] at hp
  exact ⟨hm, hp.1.1, hp.1.2, hp.2⟩

/-- A successful `findVersion` gives membership and the key fields. -/
theorem findVersion_spec {db : DB} {noteId targetVersion : Nat}
    {v : NoteVersionRec} (h : findVersion db noteId targetVersion = some v) :
    v ∈ db.noteVersions ∧ v.noteId = noteId ∧ v.version = targetVersion := by
  have hm := List.mem_of_find?_eq_some h
  have hp := List.find?_some h
  simp only [Bool.and_eq_true, beq_iff_eq] at hp
  exact ⟨hm, hp.1, hp.2⟩

/-! ### Characterizations of the mutating operations -/

/-- An authorized update whose `expectedVersion` matches succeeds and
performs exactly the two writes of the transaction. -/
theorem updateNote_eq_ok {db : DB} {noteId userId : Nat}
    (title content : String) {note : NoteRec}
    (hf : findNoteLive db noteId = some note)
    (hauth : note.userId = userId ∨ (editShares db noteId userId).isEmpty = false) :
    updateNote db noteId userId title content note.version =
      Except.ok
        ({ db with
            notes := db.notes.map
              (fun n => if n.id == note.id then updatedNote note title content else n)
            noteVersions := db.noteVersions ++ [updateRow note title content userId] },
          updatedNote note title content) := by
  unfold updateNote
  rw [hf]
  rcases hauth with h | h
  · simp [h, updatedNote, updateRow]
  · simp [h, updatedNote, updateRow]

/-- An update claiming a stale `expectedVersion` fails with the
VersionConflict message (for an authorized caller). -/
theorem updateNote_conflict {db : DB} {noteId userId : Nat}
    (title content : String) {expectedVersion : Nat} {note : NoteRec}
    (hf : findNoteLive db noteId = some note)
    (hauth : note.userId = userId ∨ (editShares db noteId userId).isEmpty = false)
    (hver : note.version ≠ expectedVersion) :
    updateNote db noteId userId title content expectedVersion =
      Except.error versionConflictMsg := by
  unfold updateNote
  rw [hf]
  rcases hauth with h | h
  · simp [h, hver]
  · simp [h, hver]

/-- Anatomy of a successful update: the live note was found, its version
matched, and the state differs exactly by the note rewrite and the
appended NoteVersion row. -/
theorem updateNote_ok_inv {db : DB} {noteId userId : Nat}
    {title content : String} {expectedVersion : Nat} {db2 : DB} {n2 : NoteRec}
    (h : updateNote db noteId userId title content expectedVersion =
      Except.ok (db2, n2)) :
    ∃ note, findNoteLive db noteId = some note ∧
      note.version = expectedVersion ∧
      (note.userId = userId ∨ (editShares db noteId userId).isEmpty = false) ∧
      n2 = updatedNote note title content ∧
      db2.notes = db.notes.map (fun n => if n.id == note.id then n2 else n) ∧
      db2.noteVersions = db.noteVersions ++ [updateRow note title content userId] ∧
      db2.users = db.users ∧ db2.noteShares = db.noteShares ∧
      db2.nextNoteId = db.nextNoteId := by
  unfold updateNote at h
  cases hfind : findNoteLive db noteId with
  | none => rw [hfind] at h; cases h
  | some note =>
    rw [hfind] at h
    simp only [] at h
    by_cases hg :
        (!(note.userId == userId) && !(!(editShares db noteId userId).isEmpty)) = true
    · rw [if_pos hg] at h; cases h
    · rw [if_neg hg] at h
      by_cases hv : (note.version != expectedVersion) = true
      · rw [if_pos hv] at h; cases h
      · rw [if_neg hv] at h
        injection h with h2
        injection h2 with hdb hnote
        have hauth : note.userId = userId ∨
            (editShares db noteId userId).isEmpty = false := by
          by_cases ho : note.userId = userId
          · exact Or.inl ho
          · cases he : (editShares db noteId userId).isEmpty with
            | false => exact Or.inr rfl
            | true => exact absurd (by simp [ho, he]) hg
        refine ⟨note, rfl, by simpa using hv, hauth, ?_, ?_, ?_, ?_, ?_, ?_⟩
        · rw [← hnote]; rfl
        · rw [← hdb, ← hnote]
        · rw [← hdb]; rfl
        · rw [← hdb]
        · rw [← hdb]
        · rw [← hdb]

/-- An owner revert to a stored version succeeds and performs exactly the
two writes of the transaction. -/
theorem revertToVersion_eq_ok {db : DB} {noteId userId targetVersion : Nat}
    {note : NoteRec} {target : NoteVersionRec}
    (hf : findNoteOwned db noteId userId = some note)
    (ht : findVersion db noteId targetVersion = some target) :
    revertToVersion db noteId userId targetVersion =
      Except.ok
        ({ db with
            notes := db.notes.map
              (fun n => if n.id == note.id then revertedNote note target else n)
            noteVersions := db.noteVersions ++ [revertRow note target userId] },
          revertedNote note target) := by
  unfold revertToVersion
  rw [hf, ht]
  rfl

/-- Anatomy of a successful revert. -/
theorem revertToVersion_ok_inv {db : DB} {noteId userId targetVersion : Nat}
    {db2 : DB} {n2 : NoteRec}
    (h : revertToVersion db noteId userId targetVersion = Except.ok (db2, n2)) :
    ∃ note target, findNoteOwned db noteId userId = some note ∧
      findVersion db noteId targetVersion = some target ∧
      n2 = revertedNote note target ∧
      db2.notes = db.notes.map (fun n => if n.id == note.id then n2 else n) ∧
      db2.noteVersions = db.noteVersions ++ [revertRow note target userId] ∧
      db2.users = db.users ∧ db2.noteShares = db.noteShares ∧
      db2.nextNoteId = db.nextNoteId := by
  unfold revertToVersion at h
  cases hfind : findNoteOwned db noteId userId with
  | none => rw [hfind] at h; cases h
  | some note =>
    rw [hfind] at h
    cases htv : findVersion db noteId targetVersion with
    | none => rw [htv] at h; simp at h
    | some target =>
      rw [htv] at h
      simp only [] at h
      injection h with h2
      injection h2 with hdb hnote
      refine ⟨note, target, rfl, rfl, ?_, ?_, ?_, ?_, ?_, ?_⟩
      · rw [← hnote]; rfl
      · rw [← hdb, ← hnote]
      · rw [← hdb]; rfl
      · rw [← hdb]
      · rw [← hdb]
      · rw [← hdb]

/-- An owner soft delete succeeds and rewrites only the note's
`deletedAt`. -/
theorem deleteNote_eq_ok {db : DB} {noteId userId : Nat} (now : Nat)
    {note : NoteRec} (hf : findNoteOwned db noteId userId = some note) :
    deleteNote db noteId userId now =
      Except.ok
        ({ db with
            notes := db.notes.map
              (fun n => if n.id == note.id then { note with deletedAt := some now } else n) },
          "Note deleted successfully") := by
  unfold deleteNote
  rw [hf]

/-- Anatomy of a successful delete. -/
theorem deleteNote_ok_inv {db : DB} {noteId userId now : Nat} {db2 : DB}
    {msg : String}
    (h : deleteNote db noteId userId now = Except.ok (db2, msg)) :
    ∃ note, findNoteOwned db noteId userId = some note ∧
      db2.notes = db.notes.map
        (fun n => if n.id == note.id then { note with deletedAt := some now } else n) ∧
      db2.noteVersions = db.noteVersions ∧ db2.users = db.users ∧
      db2.noteShares = db.noteShares ∧ db2.nextNoteId = db.nextNoteId := by
  unfold deleteNote at h
  cases hfind : findNoteOwned db noteId userId with
  | none => rw [hfind] at h; cases h
  | some note =>
    rw [hfind] at h
    simp only [] at h
    injection h with h2
    injection h2 with hdb hmsg
    refine ⟨note, rfl, ?_, ?_, ?_, ?_, ?_⟩
    · rw [← hdb]
    · rw [← hdb]
    · rw [← hdb]
    · rw [← hdb]
    · rw [← hdb]

/-- Anatomy of a successful share: the guards passed, and the grant was
either inserted (no prior row) or overwritten in place. -/
theorem shareNote_ok_inv {db : DB} {noteId ownerId sharedWithUserId : Nat}
    {permission : Option SharePermission} {db2 : DB} {s2 : NoteShareRec}
    (h : shareNote db noteId ownerId sharedWithUserId permission =
      Except.ok (db2, s2)) :
    ownerId ≠ sharedWithUserId ∧
    (∃ note, findNoteOwned db noteId ownerId = some note) ∧
    db.users.contains sharedWithUserId = true ∧
    db2.notes = db.notes ∧ db2.noteVersions = db.noteVersions ∧
    db2.users = db.users ∧ db2.nextNoteId = db.nextNoteId ∧
    ((findShare db noteId sharedWithUserId = none ∧
        db2.noteShares = db.noteShares ++
          [{ noteId := noteId, sharedWithUserId := sharedWithUserId
             permission := permission.getD SharePermission.read }]) ∨
      (∃ s, findShare db noteId sharedWithUserId = some s ∧
        db2.noteShares = setSharePermission noteId sharedWithUserId
          (permission.getD SharePermission.read) db.noteShares)) := by
  unfold shareNote at h
  by_cases hself : ownerId = sharedWithUserId
  · rw [if_pos (by simpa using hself)] at h; cases h
  · rw [if_neg (by simpa using hself)] at h
    cases hfind : findNoteOwned db noteId ownerId with
    | none => rw [hfind] at h; cases h
    | some note =>
      rw [hfind] at h
      by_cases hu : db.users.contains sharedWithUserId = true
      · rw [if_pos hu] at h
        cases hs : findShare db noteId sharedWithUserId with
        | none =>
          rw [hs] at h
          simp only [] at h
          injection h with h2
          injection h2 with hdb hshare
          refine ⟨hself, ⟨note, rfl⟩, hu, ?_, ?_, ?_, ?_, Or.inl ⟨rfl, ?_⟩⟩
          · rw [← hdb]
          · rw [← hdb]
          · rw [← hdb]
          · rw [← hdb]
          · rw [← hdb]
        | some s =>
          rw [hs] at h
          simp only [] at h
          injection h with h2
          injection h2 with hdb hshare
          refine ⟨hself, ⟨note, rfl⟩, hu, ?_, ?_, ?_, ?_, Or.inr ⟨s, rfl, ?_⟩⟩
          · rw [← hdb]
          · rw [← hdb]
          · rw [← hdb]
          · rw [← hdb]
          · rw [← hdb]
      · rw [if_neg hu] at h; cases h

/-! ### The version-history invariant -/

/-- `List.range' 1` grows by its upper bound on the right. -/
theorem range'_one_concat (v : Nat) :
    List.range' 1 (v + 1) = List.range' 1 v ++ [v + 1] := by
  rw [List.range'_concat]
  simp [Nat.add_comm]

/-- Mapping while preserving ids leaves the id column untouched. -/
theorem map_preserve_ids (l : List NoteRec) (f : NoteRec → NoteRec)
    (h : ∀ n ∈ l, (f n).id = n.id) :
    (l.map f).map (fun n => n.id) = l.map (fun n => n.id) := by
  rw [List.map_map]
  exact List.map_congr_left h

/-- Appending a version row for this note extends its history by that row. -/
theorem versionsOf_append_match (db : DB) (v : NoteVersionRec) (i : Nat)
    (vs' : List NoteVersionRec) (hvs : vs' = db.noteVersions ++ [v])
    (h : v.noteId = i) :
    vs'.filter (fun w => w.noteId == i) = versionsOf db i ++ [v] := by
  subst hvs
  simp [versionsOf, List.filter_append, h]

/-- Appending a version row for another note leaves this history alone. -/
theorem versionsOf_append_nomatch (db : DB) (v : NoteVersionRec) (i : Nat)
    (vs' : List NoteVersionRec) (hvs : vs' = db.noteVersions ++ [v])
    (h : v.noteId ≠ i) :
    vs'.filter (fun w => w.noteId == i) = versionsOf db i := by
  subst hvs
  simp [versionsOf, List.filter_append, h]

/-- A common step for update and revert: replacing the note (same id, new
title/content, version bumped by one) and appending the matching version
row preserves the invariant. -/
theorem inv_bump (db db2 : DB) (note n2 : NoteRec) (row : NoteVersionRec)
    (hInv : Inv db) (hmem : note ∈ db.notes)
    (hn2id : n2.id = note.id) (hn2v : n2.version = note.version + 1)
    (hrow : row.noteId = note.id ∧ row.version = note.version + 1 ∧
      row.title = n2.title ∧ row.content = n2.content)
    (hnotes : db2.notes = db.notes.map (fun n => if n.id == note.id then n2 else n))
    (hvers : db2.noteVersions = db.noteVersions ++ [row])
    (hnext : db2.nextNoteId = db.nextNoteId) :
    Inv db2 := by
  obtain ⟨hnodup, hidb, hvb, hhist⟩ := hInv
  have hids : ∀ n ∈ db.notes,
      ((fun n => if n.id == note.id then n2 else n) n).id = n.id := by
    intro n hn
    by_cases hcase : n.id = note.id
    · simp [hcase, hn2id]
    · simp [hcase]
  refine ⟨?_, ?_, ?_, ?_⟩
  · rw [hnotes, map_preserve_ids db.notes _ hids]
    exact hnodup
  · intro n hn
    rw [hnotes] at hn
    obtain ⟨n0, hn0, rfl⟩ := List.mem_map.mp hn
    rw [hnext]
    by_cases hcase : n0.id = note.id
    · rw [if_pos (by simp [hcase])]
      rw [hn2id, ← hcase]
      exact hidb n0 hn0
    · rw [if_neg (by simp [hcase])]
      exact hidb n0 hn0
  · intro v hv
    rw [hvers] at hv
    rw [hnext]
    rcases List.mem_append.mp hv with hv2 | hv2
    · exact hvb v hv2
    · have : v = row := by simpa using hv2
      subst this
      rw [hrow.1]
      exact hidb note hmem
  · intro m hm
    rw [hnotes] at hm
    obtain ⟨n0, hn0, rfl⟩ := List.mem_map.mp hm
    by_cases hcase : n0.id = note.id
    · have hn0note : n0 = note :=
        List.inj_on_of_nodup_map hnodup hn0 hmem hcase
      subst hn0note
      rw [if_pos (by simp [hcase])]
      obtain ⟨hnums, w, hlast, hwv, hwt, hwc⟩ := hhist n0 hn0
      have hfilter : versionsOf db2 n0.id = versionsOf db n0.id ++ [row] := by
        unfold versionsOf
        exact versionsOf_append_match db row n0.id db2.noteVersions hvers hrow.1
      unfold noteHistoryOk
      rw [hn2id]
      constructor
      · unfold versionNumbers
        rw [hfilter]
        rw [List.map_append]
        unfold versionNumbers at hnums
        rw [hnums, hn2v, range'_one_concat]
        simp [hrow.2.1]
      · refine ⟨row, ?_, ?_, hrow.2.2.1, hrow.2.2.2⟩
        · rw [hfilter]
          exact List.getLast?_concat _
        · rw [hrow.2.1, hn2v]
    · rw [if_neg (by simp [hcase])]
      obtain ⟨hnums, w, hlast, hwv, hwt, hwc⟩ := hhist n0 hn0
      have hfilter : versionsOf db2 n0.id = versionsOf db n0.id := by
        unfold versionsOf
        exact versionsOf_append_nomatch db row n0.id db2.noteVersions hvers
          (by rw [hrow.1]; exact fun hh => hcase hh.symm)
      refine ⟨?_, ⟨w, ?_, hwv, hwt, hwc⟩⟩
      · unfold versionNumbers
        rw [hfilter]
        exact hnums
      · rw [hfilter]
        exact hlast

/-- A note's history only depends on the `note_versions` table. -/
theorem noteHistoryOk_congr (db db2 : DB) (n : NoteRec)
    (h : db2.noteVersions = db.noteVersions) (hh : noteHistoryOk db n) :
    noteHistoryOk db2 n := by
  unfold noteHistoryOk versionNumbers versionsOf at hh ⊢
  rw [h]
  exact hh

/-- `createNote` in explicit form. -/
theorem createNote_eq (db : DB) (userId : Nat) (title content : String) :
    createNote db userId title content =
      ({ db with
          notes := db.notes ++ [newNote db userId title content]
          noteVersions := db.noteVersions ++ [newNoteRow db userId title content]
          nextNoteId := db.nextNoteId + 1 }, newNote db userId title content) := rfl

/-- `createNote` preserves the invariant: the fresh note starts at
version 1 with exactly its initial snapshot stored. -/
theorem inv_create (db : DB) (userId : Nat) (title content : String)
    (hInv : Inv db) : Inv (createNote db userId title content).1 := by
  obtain ⟨hnodup, hidb, hvb, hhist⟩ := hInv
  rw [createNote_eq]
  refine ⟨?_, ?_, ?_, ?_⟩
  · rw [List.map_append]
    rw [List.nodup_append]
    refine ⟨hnodup, by simp, ?_⟩
    intro a ha hb
    simp only [List.map_cons, List.map_nil, List.mem_singleton] at hb
    obtain ⟨n, hn, hid⟩ := List.mem_map.mp ha
    rw [hb] at hid
    simp only [newNote] at hid
    exact (Nat.ne_of_lt (hidb n hn)) hid
  · intro n hn
    rcases List.mem_append.mp hn with h2 | h2
    · exact Nat.lt_trans (hidb n h2) (Nat.lt_succ_self _)
    · have hn2 : n = newNote db userId title content := by simpa using h2
      rw [hn2]
      exact Nat.lt_succ_self _
  · intro v hv
    rcases List.mem_append.mp hv with h2 | h2
    · exact Nat.lt_trans (hvb v h2) (Nat.lt_succ_self _)
    · have hv2 : v = newNoteRow db userId title content := by simpa using h2
      rw [hv2]
      exact Nat.lt_succ_self _
  · intro n hn
    rcases List.mem_append.mp hn with h2 | h2
    · -- an existing note: the appended row belongs to the fresh id
      obtain ⟨hnums, w, hlast, hwv, hwt, hwc⟩ := hhist n h2
      have hne : (newNoteRow db userId title content).noteId ≠ n.id :=
        (Nat.ne_of_lt (hidb n h2)).symm
      have hfilter :
          (db.noteVersions ++ [newNoteRow db userId title content]).filter
              (fun w => w.noteId == n.id) = versionsOf db n.id := by
        simp [versionsOf, List.filter_append, hne]
      unfold noteHistoryOk versionNumbers versionsOf
      rw [hfilter]
      exact ⟨hnums, w, hlast, hwv, hwt, hwc⟩
    · -- the fresh note: its history is exactly the initial snapshot
      have hn2 : n = newNote db userId title content := by simpa using h2
      have hfilter :
          (db.noteVersions ++ [newNoteRow db userId title content]).filter
              (fun w => w.noteId == n.id) = [newNoteRow db userId title content] := by
        rw [List.filter_append]
        have hol : db.noteVersions.filter (fun w => w.noteId == n.id) = [] := by
          rw [List.filter_eq_nil_iff]
          intro v hv
          rw [hn2]
          simp only [beq_iff_eq, newNote]
          exact (Nat.ne_of_lt (hvb v hv))
        rw [hol]
        rw [hn2]
        simp [newNote, newNoteRow]
      unfold noteHistoryOk versionNumbers versionsOf
      rw [hfilter, hn2]
      refine ⟨by simp [List.range', newNote, newNoteRow], ?_⟩
      exact ⟨_, rfl, rfl, rfl, rfl⟩

/-- `updateNote` preserves the invariant. -/
theorem inv_update {db : DB} {noteId userId : Nat} {title content : String}
    {expectedVersion : Nat} {db2 : DB} {n2 : NoteRec} (hInv : Inv db)
    (h : updateNote db noteId userId title content expectedVersion =
      Except.ok (db2, n2)) : Inv db2 := by
  obtain ⟨note, hf, hver, hauth, hn2, hnotes, hvers, hus, hsh, hnext⟩ :=
    updateNote_ok_inv h
  obtain ⟨hmem, hnid, hlive⟩ := findNoteLive_spec hf
  exact inv_bump db db2 note n2 (updateRow note title content userId) hInv hmem
    (by rw [hn2]; rfl) (by rw [hn2]; rfl)
    ⟨rfl, rfl, by rw [hn2]; rfl, by rw [hn2]; rfl⟩ hnotes hvers hnext

/-- `revertToVersion` preserves the invariant. -/
theorem inv_revert {db : DB} {noteId userId targetVersion : Nat} {db2 : DB}
    {n2 : NoteRec} (hInv : Inv db)
    (h : revertToVersion db noteId userId targetVersion = Except.ok (db2, n2)) :
    Inv db2 := by
  obtain ⟨note, target, hf, ht, hn2, hnotes, hvers, hus, hsh, hnext⟩ :=
    revertToVersion_ok_inv h
  obtain ⟨hmem, hnid, hown, hlive⟩ := findNoteOwned_spec hf
  exact inv_bump db db2 note n2 (revertRow note target userId) hInv hmem
    (by rw [hn2]; rfl) (by rw [hn2]; rfl)
    ⟨rfl, rfl, by rw [hn2]; rfl, by rw [hn2]; rfl⟩ hnotes hvers hnext

/-- `deleteNote` preserves the invariant: only `deletedAt` changes. -/
theorem inv_delete {db : DB} {noteId userId now : Nat} {db2 : DB} {msg : String}
    (hInv : Inv db)
    (h : deleteNote db noteId userId now = Except.ok (db2, msg)) : Inv db2 := by
  obtain ⟨note, hf, hnotes, hvers, hus, hsh, hnext⟩ := deleteNote_ok_inv h
  obtain ⟨hmem, hnid, hown, hlive⟩ := findNoteOwned_spec hf
  obtain ⟨hnodup, hidb, hvb, hhist⟩ := hInv
  have hids : ∀ n ∈ db.notes,
      ((fun n => if n.id == note.id then { note with deletedAt := some now } else n) n).id
        = n.id := by
    intro n hn
    by_cases hcase : n.id = note.id
    · simp [hcase]
    · simp [hcase]
  refine ⟨?_, ?_, ?_, ?_⟩
  · rw [hnotes, map_preserve_ids db.notes _ hids]
    exact hnodup
  · intro n hn
    rw [hnotes] at hn
    obtain ⟨n0, hn0, rfl⟩ := List.mem_map.mp hn
    rw [hnext]
    by_cases hcase : n0.id = note.id
    · rw [if_pos (by simp [hcase])]
      have h3 := hidb n0 hn0
      rw [hcase] at h3
      exact h3
    · rw [if_neg (by simp [hcase])]
      exact hidb n0 hn0
  · intro v hv
    rw [hvers] at hv
    rw [hnext]
    exact hvb v hv
  · intro n hn
    rw [hnotes] at hn
    obtain ⟨n0, hn0, rfl⟩ := List.mem_map.mp hn
    by_cases hcase : n0.id = note.id
    · have hn0note : n0 = note :=
        List.inj_on_of_nodup_map hnodup hn0 hmem hcase
      subst hn0note
      rw [if_pos (by simp [hcase])]
      have hh := hhist n0 hn0
      have hcongr := noteHistoryOk_congr db db2 n0 hvers hh
      unfold noteHistoryOk at hcongr ⊢
      exact hcongr
    · rw [if_neg (by simp [hcase])]
      exact noteHistoryOk_congr db db2 n0 hvers (hhist n0 hn0)

/-- `shareNote` preserves the invariant: it only touches `note_shares`. -/
theorem inv_share {db : DB} {noteId ownerId sharedWithUserId : Nat}
    {permission : Option SharePermission} {db2 : DB} {s2 : NoteShareRec}
    (hInv : Inv db)
    (h : shareNote db noteId ownerId sharedWithUserId permission =
      Except.ok (db2, s2)) : Inv db2 := by
  obtain ⟨_, _, _, hnotes, hvers, hus, hnext, _⟩ := shareNote_ok_inv h
  obtain ⟨hnodup, hidb, hvb, hhist⟩ := hInv
  refine ⟨?_, ?_, ?_, ?_⟩
  · rw [hnotes]; exact hnodup
  · intro n hn
    rw [hnotes] at hn
    rw [hnext]
    exact hidb n hn
  · intro v hv
    rw [hvers] at hv
    rw [hnext]
    exact hvb v hv
  · intro n hn
    rw [hnotes] at hn
    exact noteHistoryOk_congr db db2 n hvers (hhist n hn)

/-- Every request preserves the invariant (errors leave the state as is). -/
theorem inv_applyOp (db : DB) (op : Op) (h : Inv db) : Inv (applyOp db op) := by
  cases op with
  | create userId title content =>
    exact inv_create db userId title content h
  | update noteId userId title content expectedVersion =>
    simp only [applyOp]
    cases hres : updateNote db noteId userId title content expectedVersion with
    | error e => exact h
    | ok res =>
      obtain ⟨db2, n2⟩ := res
      exact inv_update h hres
  | revert noteId userId targetVersion =>
    simp only [applyOp]
    cases hres : revertToVersion db noteId userId targetVersion with
    | error e => exact h
    | ok res =>
      obtain ⟨db2, n2⟩ := res
      exact inv_revert h hres
  | delete noteId userId now =>
    simp only [applyOp]
    cases hres : deleteNote db noteId userId now with
    | error e => exact h
    | ok res =>
      obtain ⟨db2, msg⟩ := res
      exact inv_delete h hres
  | share noteId ownerId sharedWithUserId permission =>
    simp only [applyOp]
    cases hres : shareNote db noteId ownerId sharedWithUserId permission with
    | error e => exact h
    | ok res =>
      obtain ⟨db2, s2⟩ := res
      exact inv_share h hres

/-- The boot state satisfies the invariant. -/
theorem inv_init (users : List Nat) : Inv (initDB users) := by
  refine ⟨by simp [initDB], by simp [initDB], by simp [initDB], by simp [initDB]⟩

/-- The invariant holds along any fold of requests. -/
theorem inv_foldl (ops : List Op) (db : DB) (h : Inv db) :
    Inv (ops.foldl applyOp db) := by
  induction ops generalizing db with
  | nil => exact h
  | cons op ops ih => exact ih _ (inv_applyOp db op h)

/-- Every reachable store satisfies the invariant. -/
theorem inv_run (users : List Nat) (ops : List Op) : Inv (run users ops) :=
  inv_foldl ops _ (inv_init users)

/-- No request ever rewrites or drops an existing NoteVersion row: the
table only grows at the end. -/
theorem applyOp_append_only (db : DB) (op : Op) :
    ∃ tail, (applyOp db op).noteVersions = db.noteVersions ++ tail := by
  cases op with
  | create userId title content =>
    exact ⟨_, rfl⟩
  | update noteId userId title content expectedVersion =>
    simp only [applyOp]
    cases hres : updateNote db noteId userId title content expectedVersion with
    | error e => exact ⟨[], by simp⟩
    | ok res =>
      obtain ⟨db2, n2⟩ := res
      obtain ⟨note, _, _, _, _, _, hvers, _⟩ := updateNote_ok_inv hres
      exact ⟨_, hvers⟩
  | revert noteId userId targetVersion =>
    simp only [applyOp]
    cases hres : revertToVersion db noteId userId targetVersion with
    | error e => exact ⟨[], by simp⟩
    | ok res =>
      obtain ⟨db2, n2⟩ := res
      obtain ⟨note, target, _, _, _, _, hvers, _⟩ := revertToVersion_ok_inv hres
      exact ⟨_, hvers⟩
  | delete noteId userId now =>
    simp only [applyOp]
    cases hres : deleteNote db noteId userId now with
    | error e => exact ⟨[], by simp⟩
    | ok res =>
      obtain ⟨db2, msg⟩ := res
      obtain ⟨note, _, _, hvers, _⟩ := deleteNote_ok_inv hres
      exact ⟨[], by rw [hvers]; simp⟩
  | share noteId ownerId sharedWithUserId permission =>
    simp only [applyOp]
    cases hres : shareNote db noteId ownerId sharedWithUserId permission with
    | error e => exact ⟨[], by simp⟩
    | ok res =>
      obtain ⟨db2, s2⟩ := res
      obtain ⟨_, _, _, _, hvers, _⟩ := shareNote_ok_inv hres
      exact ⟨[], by rw [hvers]; simp⟩

/-! ### Share-row bookkeeping -/

/-- `find?` returns the head of `filter`. -/
theorem find?_eq_head_filter {α : Type} (p : α → Bool) (l : List α) :
    l.find? p = (l.filter p).head? := by
  induction l with
  | nil => rfl
  | cons a l ih =>
    by_cases h : p a = true
    · rw [List.find?_cons_of_pos _ h, List.filter_cons_of_pos h]
      rfl
    · rw [List.find?_cons_of_neg _ h, List.filter_cons_of_neg h]
      exact ih

/-- Overwriting the permission of the first matching share row rewrites
exactly the head of the filtered rows. -/
theorem filter_setSharePermission (noteId sharedWithUserId : Nat)
    (p : SharePermission) (l : List NoteShareRec) :
    (setSharePermission noteId sharedWithUserId p l).filter
        (fun s => s.noteId == noteId && s.sharedWithUserId == sharedWithUserId) =
      match l.filter
          (fun s => s.noteId == noteId && s.sharedWithUserId == sharedWithUserId) with
      | [] => []
      | s :: rest => { s with permission := p } :: rest := by
  induction l with
  | nil => rfl
  | cons a l ih =>
    by_cases h : (a.noteId == noteId && a.sharedWithUserId == sharedWithUserId) = true
    · unfold setSharePermission
      rw [if_pos h]
      simp [List.filter_cons, h]
    · unfold setSharePermission
      rw [if_neg h]
      simp only [List.filter_cons, h]
      simp only [Bool.and_eq_true] at h
      simp [List.filter_cons, h]
      exact ih

/-! ### Concrete fixtures used by witnesses and counterexamples -/

/-! ### The claims -/

/-- C9: the note read is specified to return the version history ordered
by version number descending, newest first — but the include-level
`order: version DESC` of `getNoteById` is silently ignored by Sequelize
(it sits inside a non-separate include), so the rows come back in table
order. At a note whose stored versions are 1 and 2 the read returns them
ascending, [v1, v2], which is not sorted newest first: the code does not
implement the spec's `listDescending` contract. -/
theorem C9_history_not_descending :
    getNoteById bugDb 1 1 = Except.ok (bugNote, [bugV1, bugV2]) ∧
    bugV1.version = 1 ∧ bugV2.version = 2 ∧
    ¬ ([bugV1, bugV2].Sorted (fun a b => b.version ≤ a.version)) := by
  refine ⟨rfl, rfl, rfl, ?_⟩
  intro hsorted
  rw [List.sorted_cons] at hsorted
  have h2 := hsorted.1 bugV2 (by simp)
  exact absurd h2 (by decide)

/-- C5: for update and revert, the mutation outcome is exactly the
transaction's outcome whatever the state of the Redis collaborator — a
cache-invalidation failure neither rolls the commit back nor surfaces to
the caller — no cache-invalidation event ever precedes the transaction
commit, and on success the invalidation is invoked right after the
commit. -/
theorem C5_cache_after_commit (r r2 : RedisState) (db : DB)
    (noteId userId : Nat) (title content : String)
    (expectedVersion targetVersion : Nat) :
    ((updateNoteTraced r db noteId userId title content expectedVersion).1 =
      updateNote db noteId userId title content expectedVersion) ∧
    ((updateNoteTraced r db noteId userId title content expectedVersion).1 =
      (updateNoteTraced r2 db noteId userId title content expectedVersion).1) ∧
    noInvalidateBeforeCommit
      (updateNoteTraced r db noteId userId title content expectedVersion).2 = true ∧
    (∀ res, updateNote db noteId userId title content expectedVersion =
        Except.ok res →
      (updateNoteTraced r db noteId userId title content expectedVersion).2 =
        [Event.beginTx, Event.commitTx,
          Event.cacheInvalidate (notesCachePattern userId)
            (invalidateCache r (notesCachePattern userId))]) ∧
    ((revertToVersionTraced r db noteId userId targetVersion).1 =
      revertToVersion db noteId userId targetVersion) ∧
    ((revertToVersionTraced r db noteId userId targetVersion).1 =
      (revertToVersionTraced r2 db noteId userId targetVersion).1) ∧
    noInvalidateBeforeCommit
      (revertToVersionTraced r db noteId userId targetVersion).2 = true ∧
    (∀ res, revertToVersion db noteId userId targetVersion = Except.ok res →
      (revertToVersionTraced r db noteId userId targetVersion).2 =
        [Event.beginTx, Event.commitTx,
          Event.cacheInvalidate (notesCachePattern userId)
            (invalidateCache r (notesCachePattern userId))]) := by
  unfold updateNoteTraced revertToVersionTraced
  cases hu : updateNote db noteId userId title content expectedVersion <;>
    cases hr : revertToVersion db noteId userId targetVersion <;>
      simp [noInvalidateBeforeCommit]

/-- C5 witness: at a concrete store, a dead Redis and a healthy Redis
yield the same successful update outcome, and no invalidation precedes the
commit. -/
theorem C5_cache_after_commit_witness :
    ((updateNoteTraced deadRedis exDb 1 1 "t" "c" 1).1 =
      updateNote exDb 1 1 "t" "c" 1) ∧
    ((updateNoteTraced deadRedis exDb 1 1 "t" "c" 1).1 =
      (updateNoteTraced liveRedis exDb 1 1 "t" "c" 1).1) ∧
    noInvalidateBeforeCommit (updateNoteTraced deadRedis exDb 1 1 "t" "c" 1).2 =
      true :=
  ⟨(C5_cache_after_commit deadRedis liveRedis exDb 1 1 "t" "c" 1 1).1,
    (C5_cache_after_commit deadRedis liveRedis exDb 1 1 "t" "c" 1 1).2.1,
    (C5_cache_after_commit deadRedis liveRedis exDb 1 1 "t" "c" 1 1).2.2.1⟩

/-- C1: for a live note at version V, an update by an authorized caller
(owner or edit-share holder) supplying expectedVersion = V succeeds,
setting the version to V+1, overwriting title and content, and appending
the NoteVersion row (V+1, new content, acting user id); supplying
expectedVersion ≠ V fails with VersionConflict and leaves the store
untouched. -/
theorem C1_optimistic_update (db : DB) (noteId userId : Nat)
    (title content : String) (expectedVersion : Nat) (note : NoteRec)
    (hf : findNoteLive db noteId = some note)
    (hauth : note.userId = userId ∨ (editShares db noteId userId).isEmpty = false) :
    (expectedVersion = note.version →
      ∃ db2 n2,
        updateNote db noteId userId title content expectedVersion =
          Except.ok (db2, n2) ∧
        n2.version = note.version + 1 ∧ n2.title = title ∧ n2.content = content ∧
        findNoteLive db2 noteId = some n2 ∧
        db2.noteVersions = db.noteVersions ++ [updateRow note title content userId]) ∧
    (expectedVersion ≠ note.version →
      updateNote db noteId userId title content expectedVersion =
        Except.error versionConflictMsg ∧
      applyOp db (Op.update noteId userId title content expectedVersion) = db) := by
  obtain ⟨hmem, hnid, hlive⟩ := findNoteLive_spec hf
  constructor
  · intro hev
    subst hev
    refine ⟨_, _, updateNote_eq_ok title content hf hauth, rfl, rfl, rfl, ?_, rfl⟩
    exact find_live_map db.notes noteId note (updatedNote note title content)
      hmem hnid rfl (by simp [liveNote, updatedNote, hlive])
  · intro hev
    have herr := updateNote_conflict title content hf hauth (fun he => hev he.symm)
    refine ⟨herr, ?_⟩
    simp only [applyOp]
    rw [herr]

/-- C1 witness: owner update of the example note at its current version. -/
theorem C1_optimistic_update_witness :
    findNoteLive exDb 1 = some exNote ∧
    (exNote.userId = 1 ∨ (editShares exDb 1 1).isEmpty = false) ∧
    ∃ db2 n2,
      updateNote exDb 1 1 "t" "c" 1 = Except.ok (db2, n2) ∧
      n2.version = exNote.version + 1 ∧ n2.title = "t" ∧ n2.content = "c" ∧
      findNoteLive db2 1 = some n2 ∧
      db2.noteVersions = exDb.noteVersions ++ [updateRow exNote "t" "c" 1] :=
  ⟨rfl, Or.inl rfl,
    (C1_optimistic_update exDb 1 1 "t" "c" 1 exNote rfl (Or.inl rfl)).1 rfl⟩

/-- C3: for a live note at version V owned by the caller, reverting to a
stored target version T bumps the version to V+1 (never to T), copies the
target's title and content, appends a new NoteVersion row numbered V+1
with that content, and leaves T's own record unchanged; reverting to a
version that is not stored fails with VersionNotFound and changes
nothing. -/
theorem C3_revert_protocol (db : DB) (noteId userId targetVersion : Nat)
    (note : NoteRec) (hf : findNoteOwned db noteId userId = some note) :
    (∀ target, findVersion db noteId targetVersion = some target →
      ∃ db2 n2,
        revertToVersion db noteId userId targetVersion = Except.ok (db2, n2) ∧
        n2.version = note.version + 1 ∧
        n2.title = target.title ∧ n2.content = target.content ∧
        findNoteLive db2 noteId = some n2 ∧
        db2.noteVersions = db.noteVersions ++ [revertRow note target userId] ∧
        findVersion db2 noteId targetVersion = some target) ∧
    (findVersion db noteId targetVersion = none →
      revertToVersion db noteId userId targetVersion =
        Except.error "Version not found" ∧
      applyOp db (Op.revert noteId userId targetVersion) = db) := by
  obtain ⟨hmem, hnid, hown, hlive⟩ := findNoteOwned_spec hf
  constructor
  · intro target ht
    refine ⟨_, _, revertToVersion_eq_ok hf ht, rfl, rfl, rfl, ?_, rfl, ?_⟩
    · exact find_live_map db.notes noteId note (revertedNote note target)
        hmem hnid rfl (by simp [liveNote, revertedNote, hlive])
    · exact find?_append_of_some _ _ ht
  · intro ht
    have herr : revertToVersion db noteId userId targetVersion =
        Except.error "Version not found" := by
      unfold revertToVersion
      rw [hf, ht]
    refine ⟨herr, ?_⟩
    simp only [applyOp]
    rw [herr]

/-- C3 witness: reverting the example note (version 1) to its stored
version 1 yields version 2 with the same content. -/
theorem C3_revert_protocol_witness :
    findNoteOwned exDb 1 1 = some exNote ∧
    findVersion exDb 1 1 = some exV1 ∧
    ∃ db2 n2,
      revertToVersion exDb 1 1 1 = Except.ok (db2, n2) ∧
      n2.version = exNote.version + 1 ∧
      n2.title = exV1.title ∧ n2.content = exV1.content ∧
      findNoteLive db2 1 = some n2 ∧
      db2.noteVersions = exDb.noteVersions ++ [revertRow exNote exV1 1] ∧
      findVersion db2 1 1 = some exV1 :=
  ⟨rfl, rfl, (C3_revert_protocol exDb 1 1 1 exNote rfl).1 exV1 rfl⟩

/-- Strengthening a hit: if the first record satisfying `p` also satisfies
the stronger predicate `q` (with `q` implying `p` on the list), the `q`
lookup returns the same record. -/
theorem find?_stronger {α : Type} (p q : α → Bool) (l : List α) (a : α)
    (hp : l.find? p = some a) (himp : ∀ x ∈ l, q x = true → p x = true)
    (hqa : q a = true) : l.find? q = some a := by
  induction l with
  | nil => cases hp
  | cons b bs ih =>
    by_cases hb : p b = true
    · rw [List.find?_cons_of_pos _ hb] at hp
      injection hp with hba
      subst hba
      rw [List.find?_cons_of_pos _ hqa]
    · rw [List.find?_cons_of_neg _ hb] at hp
      have hqb : ¬ q b = true := fun hq => hb (himp b (List.mem_cons_self b bs) hq)
      rw [List.find?_cons_of_neg _ hqb]
      exact ih hp (fun x hx => himp x (List.mem_cons_of_mem _ hx))

/-- With unique note ids, an unauthorized owner-only lookup misses. -/
theorem findNoteOwned_none (db : DB) (noteId userId : Nat) (note : NoteRec)
    (hnodup : (db.notes.map (fun n => n.id)).Nodup)
    (hf : findNoteLive db noteId = some note)
    (hnotowner : note.userId ≠ userId) :
    findNoteOwned db noteId userId = none := by
  obtain ⟨hmem, hnid, hlive⟩ := findNoteLive_spec hf
  rw [findNoteOwned, List.find?_eq_none]
  intro n hn
  by_cases hid : n.id = noteId
  · have hne : n = note :=
      List.inj_on_of_nodup_map hnodup hn hmem (by rw [hid, hnid])
    subst hne
    simp [hnotowner]
  · simp [hid]

/-- With unique note ids, the live note's owner satisfies the owner-only
lookup. -/
theorem findNoteOwned_of_live (db : DB) (noteId userId : Nat) (note : NoteRec)
    (hf : findNoteLive db noteId = some note)
    (hown : note.userId = userId) :
    findNoteOwned db noteId userId = some note := by
  obtain ⟨hmem, hnid, hlive⟩ := findNoteLive_spec hf
  unfold findNoteOwned
  refine find?_stronger _ _ db.notes note hf ?_ ?_
  · intro x hx hqx
    simp only [Bool.and_eq_true] at hqx ⊢
    exact ⟨hqx.1.1, hqx.2⟩
  · simp only [Bool.and_eq_true, beq_iff_eq, liveNote]
    exact ⟨⟨hnid, hown⟩, hlive⟩

/-- C4: a caller holding an edit share on a live note they do not own can
update it (with a matching expectedVersion), but their revert always fails
with the owner-only denial and changes nothing; a revert can only succeed
for the note's owner. -/
theorem C4_editor_rights (db : DB) (noteId userId : Nat) (note : NoteRec)
    (hnodup : (db.notes.map (fun n => n.id)).Nodup)
    (hf : findNoteLive db noteId = some note)
    (hnotowner : note.userId ≠ userId)
    (hshare : (editShares db noteId userId).isEmpty = false) :
    (∀ title content, ∃ db2 n2,
      updateNote db noteId userId title content note.version =
        Except.ok (db2, n2)) ∧
    (∀ targetVersion,
      revertToVersion db noteId userId targetVersion =
        Except.error "Note not found or permission denied" ∧
      applyOp db (Op.revert noteId userId targetVersion) = db) ∧
    (∀ userId2 targetVersion db2 n2,
      revertToVersion db noteId userId2 targetVersion = Except.ok (db2, n2) →
      note.userId = userId2) := by
  obtain ⟨hmem, hnid, hlive⟩ := findNoteLive_spec hf
  have hnone := findNoteOwned_none db noteId userId note hnodup hf hnotowner
  refine ⟨?_, ?_, ?_⟩
  · intro title content
    exact ⟨_, _, updateNote_eq_ok title content hf (Or.inr hshare)⟩
  · intro targetVersion
    have herr : revertToVersion db noteId userId targetVersion =
        Except.error "Note not found or permission denied" := by
      unfold revertToVersion
      rw [hnone]
    refine ⟨herr, ?_⟩
    simp only [applyOp]
    rw [herr]
  · intro userId2 targetVersion db2 n2 hrev
    obtain ⟨note2, target, hf2, _, _⟩ := revertToVersion_ok_inv hrev
    obtain ⟨hmem2, hnid2, hown2, _⟩ := findNoteOwned_spec hf2
    have hne : note2 = note :=
      List.inj_on_of_nodup_map hnodup hmem2 hmem (by rw [hnid2, hnid])
    rw [← hne]
    exact hown2

/-- C4 witness: user 2 holds an edit share on note 1 (owned by 1): their
update succeeds and their revert is denied. -/
theorem C4_editor_rights_witness :
    ((List.map (fun n => n.id) exDb.notes).Nodup) ∧
    findNoteLive exDb 1 = some exNote ∧
    exNote.userId ≠ 2 ∧
    (editShares exDb 1 2).isEmpty = false ∧
    (∃ db2 n2, updateNote exDb 1 2 "t" "c" exNote.version =
      Except.ok (db2, n2)) ∧
    (revertToVersion exDb 1 2 1 =
      Except.error "Note not found or permission denied" ∧
     applyOp exDb (Op.revert 1 2 1) = exDb) :=
  ⟨by decide, rfl, by decide, rfl,
    (C4_editor_rights exDb 1 2 exNote (by decide) rfl (by decide) rfl).1 "t" "c",
    (C4_editor_rights exDb 1 2 exNote (by decide) rfl (by decide) rfl).2.1 1⟩

/-- C2: in every reachable store, each note's stored version numbers are
exactly 1..version in order (no gaps, all bounded by the current version)
with the newest row mirroring the note's current title, content and
version; no request ever rewrites or deletes an existing NoteVersion row;
and every successful update or revert bumps the version of the affected
note by exactly 1. -/
theorem C2_version_history (users : List Nat) (ops : List Op) (op : Op) :
    (∀ n ∈ (run users ops).notes,
      versionNumbers (run users ops) n.id = List.range' 1 n.version ∧
      (∀ v ∈ versionsOf (run users ops) n.id, v.version ≤ n.version) ∧
      ∃ v, (versionsOf (run users ops) n.id).getLast? = some v ∧
        v.version = n.version ∧ v.title = n.title ∧ v.content = n.content) ∧
    (∃ tail, (applyOp (run users ops) op).noteVersions =
      (run users ops).noteVersions ++ tail) ∧
    (∀ noteId userId title content expectedVersion db2 n2,
      updateNote (run users ops) noteId userId title content expectedVersion =
        Except.ok (db2, n2) →
      ∃ n ∈ (run users ops).notes, n.id = noteId ∧
        n2.version = n.version + 1) ∧
    (∀ noteId userId targetVersion db2 n2,
      revertToVersion (run users ops) noteId userId targetVersion =
        Except.ok (db2, n2) →
      ∃ n ∈ (run users ops).notes, n.id = noteId ∧
        n2.version = n.version + 1) := by
  refine ⟨?_, applyOp_append_only _ op, ?_, ?_⟩
  · intro n hn
    obtain ⟨hnums, v, hlast, hv, ht, hc⟩ := (inv_run users ops).2.2.2 n hn
    refine ⟨hnums, ?_, v, hlast, hv, ht, hc⟩
    intro w hw
    have hmemnum : w.version ∈ versionNumbers (run users ops) n.id :=
      List.mem_map_of_mem _ hw
    rw [hnums] at hmemnum
    have hrange := List.mem_range'_1.mp hmemnum
    omega
  · intro noteId userId title content expectedVersion db2 n2 h
    obtain ⟨note, hf, hver, _, hn2, _⟩ := updateNote_ok_inv h
    obtain ⟨hmem, hnid, _⟩ := findNoteLive_spec hf
    exact ⟨note, hmem, hnid, by rw [hn2]; rfl⟩
  · intro noteId userId targetVersion db2 n2 h
    obtain ⟨note, target, hf, _, hn2, _⟩ := revertToVersion_ok_inv h
    obtain ⟨hmem, hnid, _, _⟩ := findNoteOwned_spec hf
    exact ⟨note, hmem, hnid, by rw [hn2]; rfl⟩

/-- C2 witness: after creating one note, the history invariants hold at
the concrete store and a further update only appends rows. -/
theorem C2_version_history_witness :
    (∀ n ∈ (run [1] [Op.create 1 "a" "b"]).notes,
      versionNumbers (run [1] [Op.create 1 "a" "b"]) n.id =
        List.range' 1 n.version ∧
      (∀ v ∈ versionsOf (run [1] [Op.create 1 "a" "b"]) n.id,
        v.version ≤ n.version) ∧
      ∃ v, (versionsOf (run [1] [Op.create 1 "a" "b"]) n.id).getLast? = some v ∧
        v.version = n.version ∧ v.title = n.title ∧ v.content = n.content) ∧
    ∃ tail, (applyOp (run [1] [Op.create 1 "a" "b"])
        (Op.update 1 1 "t" "c" 1)).noteVersions =
      (run [1] [Op.create 1 "a" "b"]).noteVersions ++ tail :=
  ⟨(C2_version_history [1] [Op.create 1 "a" "b"] (Op.update 1 1 "t" "c" 1)).1,
    (C2_version_history [1] [Op.create 1 "a" "b"] (Op.update 1 1 "t" "c" 1)).2.1⟩

/-- C7: sharing a note with a user at `read` and then again at `edit`
leaves exactly one NoteShare row for the pair, carrying the most recent
permission (`edit`); re-sharing never duplicates the row (given the unique
index, i.e. at most one prior row for the pair). -/
theorem C7_share_upsert (db : DB) (noteId ownerId targetUserId : Nat)
    (hcount : countShares db noteId targetUserId ≤ 1)
    (db1 : DB) (s1 : NoteShareRec) (db2 : DB) (s2 : NoteShareRec)
    (h1 : shareNote db noteId ownerId targetUserId (some SharePermission.read) =
      Except.ok (db1, s1))
    (h2 : shareNote db1 noteId ownerId targetUserId (some SharePermission.edit) =
      Except.ok (db2, s2)) :
    countShares db2 noteId targetUserId = 1 ∧
    ∀ s ∈ db2.noteShares, s.noteId = noteId → s.sharedWithUserId = targetUserId →
      s.permission = SharePermission.edit := by
  obtain ⟨_, _, _, _, _, _, _, hcase1⟩ := shareNote_ok_inv h1
  have hone : ∃ r1, db1.noteShares.filter
      (fun s => s.noteId == noteId && s.sharedWithUserId == targetUserId) =
        [r1] := by
    rcases hcase1 with ⟨hnone, hshares⟩ | ⟨s0, hsome, hshares⟩
    · have hfe : db.noteShares.filter
          (fun s => s.noteId == noteId && s.sharedWithUserId == targetUserId) =
            [] := by
        rw [findShare, find?_eq_head_filter] at hnone
        exact List.head?_eq_none_iff.mp hnone
      refine ⟨{ noteId := noteId, sharedWithUserId := targetUserId
                permission := (some SharePermission.read).getD SharePermission.read },
        ?_⟩
      rw [hshares, List.filter_append, hfe]
      simp
    · have hhead : (db.noteShares.filter
          (fun s => s.noteId == noteId && s.sharedWithUserId == targetUserId)).head?
            = some s0 := by
        rw [← find?_eq_head_filter]
        exact hsome
      cases hfl : db.noteShares.filter
          (fun s => s.noteId == noteId && s.sharedWithUserId == targetUserId) with
      | nil => rw [hfl] at hhead; cases hhead
      | cons x rest =>
        have hrest : rest = [] := by
          unfold countShares at hcount
          rw [hfl] at hcount
          simp only [List.length_cons] at hcount
          exact List.eq_nil_of_length_eq_zero (by omega)
        refine ⟨{ x with
            permission := (some SharePermission.read).getD SharePermission.read },
          ?_⟩
        rw [hshares, filter_setSharePermission, hfl, hrest]
  obtain ⟨r1, hone⟩ := hone
  obtain ⟨_, _, _, _, _, _, _, hcase2⟩ := shareNote_ok_inv h2
  rcases hcase2 with ⟨hnone2, _⟩ | ⟨t0, hsome2, hshares2⟩
  · exfalso
    rw [findShare, find?_eq_head_filter, hone] at hnone2
    cases hnone2
  · have hfilter2 : db2.noteShares.filter
        (fun s => s.noteId == noteId && s.sharedWithUserId == targetUserId) =
        [{ r1 with permission := SharePermission.edit }] := by
      rw [hshares2, filter_setSharePermission, hone]
      rfl
    constructor
    · unfold countShares
      rw [hfilter2]
      rfl
    · intro s hs hsn hst
      have hmems : s ∈ db2.noteShares.filter
          (fun s => s.noteId == noteId && s.sharedWithUserId == targetUserId) := by
        rw [List.mem_filter]
        exact ⟨hs, by simp [hsn, hst]⟩
      rw [hfilter2] at hmems
      have hse : s = { r1 with permission := SharePermission.edit } := by
        simpa using hmems
      rw [hse]

/-- C7 witness: share note 1 with user 3 at read, then at edit: one row,
permission edit. -/
theorem C7_share_upsert_witness :
    countShares exDb 1 3 ≤ 1 ∧
    shareNote exDb 1 1 3 (some SharePermission.read) =
      Except.ok (exDb1,
        { noteId := 1, sharedWithUserId := 3, permission := SharePermission.read }) ∧
    shareNote exDb1 1 1 3 (some SharePermission.edit) =
      Except.ok (exDb2,
        { noteId := 1, sharedWithUserId := 3, permission := SharePermission.edit }) ∧
    countShares exDb2 1 3 = 1 ∧
    (∀ s ∈ exDb2.noteShares, s.noteId = 1 → s.sharedWithUserId = 3 →
      s.permission = SharePermission.edit) :=
  ⟨by decide, rfl, rfl,
    (C7_share_upsert exDb 1 1 3 (by decide) exDb1
      { noteId := 1, sharedWithUserId := 3, permission := SharePermission.read }
      exDb2
      { noteId := 1, sharedWithUserId := 3, permission := SharePermission.edit }
      rfl rfl).1,
    (C7_share_upsert exDb 1 1 3 (by decide) exDb1
      { noteId := 1, sharedWithUserId := 3, permission := SharePermission.read }
      exDb2
      { noteId := 1, sharedWithUserId := 3, permission := SharePermission.edit }
      rfl rfl).2⟩

/-- C8: shareNote rejects a self-share, a caller who is not the note's
owner, and a target user that does not exist — each before any grant is
written, leaving the store untouched. -/
theorem C8_share_guards (db : DB) (noteId ownerId targetUserId : Nat)
    (permission : Option SharePermission) :
    (ownerId = targetUserId →
      shareNote db noteId ownerId targetUserId permission =
        Except.error "Cannot share note with yourself" ∧
      applyOp db (Op.share noteId ownerId targetUserId permission) = db) ∧
    (ownerId ≠ targetUserId → findNoteOwned db noteId ownerId = none →
      shareNote db noteId ownerId targetUserId permission =
        Except.error "Note not found or permission denied" ∧
      applyOp db (Op.share noteId ownerId targetUserId permission) = db) ∧
    (∀ note, ownerId ≠ targetUserId →
      findNoteOwned db noteId ownerId = some note →
      db.users.contains targetUserId = false →
      shareNote db noteId ownerId targetUserId permission =
        Except.error "User not found" ∧
      applyOp db (Op.share noteId ownerId targetUserId permission) = db) := by
  refine ⟨?_, ?_, ?_⟩
  · intro h
    have herr : shareNote db noteId ownerId targetUserId permission =
        Except.error "Cannot share note with yourself" := by
      unfold shareNote
      rw [if_pos (by simpa using h)]
    refine ⟨herr, ?_⟩
    simp only [applyOp]
    rw [herr]
  · intro hne hnone
    have herr : shareNote db noteId ownerId targetUserId permission =
        Except.error "Note not found or permission denied" := by
      unfold shareNote
      rw [if_neg (by simpa using hne), hnone]
    refine ⟨herr, ?_⟩
    simp only [applyOp]
    rw [herr]
  · intro note hne hsome hu
    have herr : shareNote db noteId ownerId targetUserId permission =
        Except.error "User not found" := by
      unfold shareNote
      rw [if_neg (by simpa using hne), hsome]
      rw [if_neg (by intro hc; rw [hu] at hc; exact Bool.noConfusion hc)]
    refine ⟨herr, ?_⟩
    simp only [applyOp]
    rw [herr]

/-- C8 witness: self-share and unknown-target rejections at the concrete
store. -/
theorem C8_share_guards_witness :
    (shareNote exDb 1 2 2 none = Except.error "Cannot share note with yourself" ∧
      applyOp exDb (Op.share 1 2 2 none) = exDb) ∧
    findNoteOwned exDb 1 1 = some exNote ∧
    exDb.users.contains 9 = false ∧
    (shareNote exDb 1 1 9 none = Except.error "User not found" ∧
      applyOp exDb (Op.share 1 1 9 none) = exDb) :=
  ⟨(C8_share_guards exDb 1 2 2 none).1 rfl, rfl, rfl,
    (C8_share_guards exDb 1 1 9 none).2.2 exNote (by decide) rfl rfl⟩

/-- C6 counterexample: a caller with no relation to note 1 gets
"Permission denied" from an update when the note exists, but
"Note not found" when it does not — the two errors differ, so an update
attempt does distinguish existence. -/
theorem C6_counterexample :
    updateNote exDb 1 3 "t" "c" 1 = Except.error "Permission denied" ∧
    updateNote (initDB [1, 2, 3]) 1 3 "t" "c" 1 =
      Except.error "Note not found" ∧
    ("Permission denied" : String) ≠ "Note not found" :=
  ⟨rfl, rfl, by decide⟩

/-- C6 amended: for a caller with no owner/editor/viewer relation, the
read path (`getNoteById`) surfaces one identical combined error whether
the note exists or not, so reads cannot probe existence; the update path,
however, distinguishes a missing note ("Note not found") from an existing
inaccessible one ("Permission denied"). -/
theorem C6_amended (db : DB) (noteId userId : Nat) (title content : String)
    (expectedVersion : Nat)
    (hnoown : ∀ n ∈ db.notes, n.id = noteId → n.userId ≠ userId)
    (hnoshare : ∀ s ∈ db.noteShares,
      ¬(s.noteId = noteId ∧ s.sharedWithUserId = userId)) :
    getNoteById db noteId userId =
      Except.error "Note not found or access denied" ∧
    (findNoteLive db noteId = none →
      updateNote db noteId userId title content expectedVersion =
        Except.error "Note not found") ∧
    (∀ note, findNoteLive db noteId = some note →
      updateNote db noteId userId title content expectedVersion =
        Except.error "Permission denied") := by
  refine ⟨?_, ?_, ?_⟩
  · have hfind : db.notes.find?
        (fun n => n.id == noteId && (n.userId == userId || anyShareFor db n.id userId)
          && liveNote n) = none := by
      rw [List.find?_eq_none]
      intro n hn
      by_cases hid : n.id = noteId
      · have hno : n.userId ≠ userId := hnoown n hn hid
        have hshare : anyShareFor db n.id userId = false := by
          rw [anyShareFor, List.any_eq_false]
          intro x hx hpx
          simp only [Bool.and_eq_true, beq_iff_eq] at hpx
          exact hnoshare x hx ⟨hpx.1.trans hid, hpx.2⟩
        simp [hno, hshare]
      · simp [hid]
    unfold getNoteById
    rw [hfind]
  · intro h
    unfold updateNote
    rw [h]
  · intro note hf
    obtain ⟨hmem, hnid, hlive⟩ := findNoteLive_spec hf
    have hown : (note.userId == userId) = false := by
      simp [hnoown note hmem hnid]
    have he : editShares db noteId userId = [] := by
      unfold editShares
      rw [List.filter_eq_nil_iff]
      intro x hx hpx
      simp only [Bool.and_eq_true, beq_iff_eq] at hpx
      exact hnoshare x hx ⟨hpx.1.1, hpx.1.2⟩
    unfold updateNote
    rw [hf]
    simp [hown, he]

/-- C6 amended witness: user 3 (no relation) against the example store. -/
theorem C6_amended_witness :
    (∀ n ∈ exDb.notes, n.id = 1 → n.userId ≠ 3) ∧
    (∀ s ∈ exDb.noteShares, ¬(s.noteId = 1 ∧ s.sharedWithUserId = 3)) ∧
    getNoteById exDb 1 3 = Except.error "Note not found or access denied" ∧
    (∀ note, findNoteLive exDb 1 = some note →
      updateNote exDb 1 3 "t" "c" 1 = Except.error "Permission denied") :=
  ⟨by decide, by decide,
    (C6_amended exDb 1 3 "t" "c" 1 (by decide) (by decide)).1,
    (C6_amended exDb 1 3 "t" "c" 1 (by decide) (by decide)).2.2⟩

/-- C10: only the owner can soft-delete a live note — any other caller
(including an edit-share holder) is rejected with the combined denial and
the store is unchanged; a successful delete sets `deletedAt`, after which
the note is gone from reads, searches, updates and shares, while its row
and all NoteVersion history rows persist. -/
theorem C10_soft_delete (db : DB) (noteId userId now : Nat) (note : NoteRec)
    (hnodup : (db.notes.map (fun n => n.id)).Nodup)
    (hf : findNoteLive db noteId = some note) :
    (note.userId ≠ userId →
      deleteNote db noteId userId now =
        Except.error "Note not found or permission denied" ∧
      applyOp db (Op.delete noteId userId now) = db) ∧
    (note.userId = userId →
      ∃ db2, deleteNote db noteId userId now =
          Except.ok (db2, "Note deleted successfully") ∧
        db2.noteVersions = db.noteVersions ∧
        db2.notes.length = db.notes.length ∧
        (∃ m ∈ db2.notes, m.id = noteId ∧ m.deletedAt = some now) ∧
        findNoteLive db2 noteId = none ∧
        (∀ userId2, getNoteById db2 noteId userId2 =
          Except.error "Note not found or access denied") ∧
        (∀ userId2 title content expectedVersion,
          updateNote db2 noteId userId2 title content expectedVersion =
            Except.error "Note not found") ∧
        (∀ ownerId targetUserId permission, ownerId ≠ targetUserId →
          shareNote db2 noteId ownerId targetUserId permission =
            Except.error "Note not found or permission denied") ∧
        (∀ userId2 matchesKeywords,
          ∀ m ∈ searchNotes db2 userId2 matchesKeywords, m.id ≠ noteId)) := by
  obtain ⟨hmem, hnid, hlive⟩ := findNoteLive_spec hf
  constructor
  · intro hno
    have hnone := findNoteOwned_none db noteId userId note hnodup hf hno
    have herr : deleteNote db noteId userId now =
        Except.error "Note not found or permission denied" := by
      unfold deleteNote
      rw [hnone]
    refine ⟨herr, ?_⟩
    simp only [applyOp]
    rw [herr]
  · intro hown
    have hfo := findNoteOwned_of_live db noteId userId note hf hown
    have hd := deleteNote_eq_ok now hfo
    refine ⟨_, hd, rfl, by simp, ?_, ?_, ?_, ?_, ?_, ?_⟩
    · exact ⟨{ note with deletedAt := some now },
        List.mem_map.mpr ⟨note, hmem, by simp⟩, hnid, rfl⟩
    · show (db.notes.map (fun n => if n.id == note.id then
          { note with deletedAt := some now } else n)).find?
        (fun n => n.id == noteId && liveNote n) = none
      refine find?_map_none ?_
      intro a ha
      by_cases hc : a.id = note.id
      · rw [if_pos (by simpa using hc)]
        simp [liveNote]
      · rw [if_neg (by simpa using hc)]
        have hne : a.id ≠ noteId := by rw [← hnid]; exact hc
        simp [hne]
    · intro userId2
      unfold getNoteById
      have hnone2 : (db.notes.map (fun n => if n.id == note.id then
          { note with deletedAt := some now } else n)).find?
          (fun n => n.id == noteId &&
            (n.userId == userId2 ||
              anyShareFor { db with notes := db.notes.map (fun n =>
                if n.id == note.id then { note with deletedAt := some now } else n) }
                n.id userId2) && liveNote n) = none := by
        refine find?_map_none ?_
        intro a ha
        by_cases hc : a.id = note.id
        · rw [if_pos (by simpa using hc)]
          simp [liveNote]
        · rw [if_neg (by simpa using hc)]
          have hne : a.id ≠ noteId := by rw [← hnid]; exact hc
          simp [hne]
      rw [hnone2]
    · intro userId2 title content expectedVersion
      unfold updateNote
      have hnone2 : findNoteLive { db with notes := db.notes.map (fun n =>
          if n.id == note.id then { note with deletedAt := some now } else n) }
          noteId = none := by
        refine find?_map_none ?_
        intro a ha
        by_cases hc : a.id = note.id
        · rw [if_pos (by simpa using hc)]
          simp [liveNote]
        · rw [if_neg (by simpa using hc)]
          have hne : a.id ≠ noteId := by rw [← hnid]; exact hc
          simp [hne]
      rw [hnone2]
    · intro ownerId targetUserId permission hne
      unfold shareNote
      rw [if_neg (by simpa using hne)]
      have hnone2 : findNoteOwned { db with notes := db.notes.map (fun n =>
          if n.id == note.id then { note with deletedAt := some now } else n) }
          noteId ownerId = none := by
        refine find?_map_none ?_
        intro a ha
        by_cases hc : a.id = note.id
        · rw [if_pos (by simpa using hc)]
          simp [liveNote]
        · rw [if_neg (by simpa using hc)]
          have hne2 : a.id ≠ noteId := by rw [← hnid]; exact hc
          simp [hne2]
      rw [hnone2]
    · intro userId2 matchesKeywords m hm
      obtain ⟨hmm, hpred⟩ := List.mem_filter.mp hm
      obtain ⟨a, ha, rfl⟩ := List.mem_map.mp hmm
      by_cases hc : a.id = note.id
      · exfalso
        rw [if_pos (by simpa using hc)] at hpred
        simp [liveNote] at hpred
      · rw [if_neg (by simpa using hc)]
        rw [← hnid]
        exact hc

/-- C10 witness: owner 1 soft-deletes the example note at time 5; the note
vanishes from all queries while its rows persist. -/
theorem C10_soft_delete_witness :
    ((List.map (fun n => n.id) exDb.notes).Nodup) ∧
    findNoteLive exDb 1 = some exNote ∧
    ∃ db2, deleteNote exDb 1 1 5 = Except.ok (db2, "Note deleted successfully") ∧
      db2.noteVersions = exDb.noteVersions ∧
      db2.notes.length = exDb.notes.length ∧
      (∃ m ∈ db2.notes, m.id = 1 ∧ m.deletedAt = some 5) ∧
      findNoteLive db2 1 = none ∧
      (∀ userId2, getNoteById db2 1 userId2 =
        Except.error "Note not found or access denied") ∧
      (∀ userId2 title content expectedVersion,
        updateNote db2 1 userId2 title content expectedVersion =
          Except.error "Note not found") ∧
      (∀ ownerId targetUserId permission, ownerId ≠ targetUserId →
        shareNote db2 1 ownerId targetUserId permission =
          Except.error "Note not found or permission denied") ∧
      (∀ userId2 matchesKeywords,
        ∀ m ∈ searchNotes db2 userId2 matchesKeywords, m.id ≠ 1) :=
  ⟨by decide, rfl, (C10_soft_delete exDb 1 1 5 exNote (by decide) rfl).2 rfl⟩

end NoteTaker
